import Mathlib

/-!
Verification of the index-intelligence core of `keyhole` (`mdb/index_stats.go`):
index normalization, duplicate (redundant) index detection, effective-key
sorting, and the compressed-snapshot save/load codec.

Modelling conventions:
* Go strings are modelled as Lean `String` (byte slicing is modelled at
  character granularity; all strings produced by the program here are ASCII).
* BSON values (`bson.D` and friends) are modelled by the inductive `BVal`.
* Machine integers (`int`, `int32`) are modelled as `Int`; no claim concerns
  overflow behaviour.
* Fallible operations return `Option`/`Except`; a Go runtime panic (slice out
  of range) is modelled as `none`.
* External collaborators (the mongo driver's cursors, the gzip file reader)
  are modelled at their interface boundary: the collector receives the decoded
  aggregation/listing results as `Except`-values, and the codec operates on
  the document tree that `bson.Marshal`/`bson.Unmarshal` exchange.
-/

namespace Keyhole

/-- A BSON value, as exchanged with the mongo driver: the model of Go's
`bson.D` is `List (String × BVal)` and `vdoc` wraps it as a value. -/
inductive BVal where
  | vbool : Bool → BVal
  | vint32 : Int → BVal
  | vint : Int → BVal
  | vstr : String → BVal
  | vtime : Int → BVal
  | vnull : BVal
  | vdoc : List (String × BVal) → BVal
  | varr : List BVal → BVal

/-- A BSON document (Go `bson.D`): ordered field list. -/
abbrev BDoc := List (String × BVal)

/-- `fmt.Sprint` of a key-specification direction value, as used when the
normalizer renders `KeyString` (directions are numeric or, for special
indexes, strings such as "text"). -/
def goSprint : BVal → String
  | .vbool b => toString b
  | .vint32 n => toString n
  | .vint n => toString n
  | .vstr s => s
  | .vtime n => toString n
  | .vnull => "<nil>"
  | .vdoc _ => "map"
  | .varr _ => "array"

/-- `Accesses` (index_stats.go lines 38-41): operation count and the start of
the counting window (a BSON datetime, modelled as an integer timestamp). -/
structure Accesses where
  Ops : Int := 0
  Since : Int := 0
deriving DecidableEq

/-- `IndexUsage` (index_stats.go lines 44-49): one per-shard usage record. -/
structure IndexUsage where
  Accesses : Accesses := {}
  Host : String := ""
  Name : String := ""
  Shard : String := ""
deriving DecidableEq

/-- `Index` (index_stats.go lines 63-81): the decoded index specification plus
the derived annotation fields.  Defaults are the Go zero values (`Index{}`).
`Collation` and `PartialFilterExpression` are nilable `bson.D` values: `none`
models the Go `nil` document. -/
structure Index where
  Background : Bool := false
  Collation : Option BDoc := none
  ExpireAfterSeconds : Int := 0
  Key : BDoc := []
  Name : String := ""
  PartialFilterExpression : Option BDoc := none
  Sparse : Bool := false
  Unique : Bool := false
  Version : Int := 0
  EffectiveKey : String := ""
  Fields : List String := []
  IsDupped : Bool := false
  IsShardKey : Bool := false
  KeyString : String := ""
  TotalOps : Int := 0
  Usage : List IndexUsage := []

/-- One rendered entry of `KeyString`: `field ++ ": " ++ fmt.Sprint value`
(index_stats.go line 249). -/
def keyEntryStr (e : String × BVal) : String := e.1 ++ ": " ++ goSprint e.2

/-- The body of the `KeyString` rendering loop after the opening "\x7b ":
each entry followed by ", ", the last followed by " \x7d"
(index_stats.go lines 244-255). -/
def keyBody : BDoc → String
  | [] => ""
  | [e] => keyEntryStr e ++ " \x7d"
  | e :: rest => keyEntryStr e ++ ", " ++ keyBody rest

/-- `KeyString` built from the key specification: the loop writes "\x7b " on
the first iteration, so an empty key specification yields the empty string
(index_stats.go lines 242-257). -/
def keyStringOf (key : BDoc) : String :=
  match key with
  | [] => ""
  | l => "\x7b " ++ keyBody l

/-- Scanner of Go's `strings.Replace(s, old, new, -1)` on character lists:
in mode `0`, an occurrence of `old` at the head is replaced by `new` and the
scanner skips the rest of the occurrence (`k > 0` counts characters still to
skip); occurrences are non-overlapping, found left to right.  (Go treats an
empty `old` specially by inserting between characters; the program only ever
replaces the nonempty pattern ": -1", so that case is left as the identity.) -/
def goReplaceAux (old new : List Char) : Nat → List Char → List Char
  | 0, [] => []
  | 0, c :: rest =>
    if old.isPrefixOf (c :: rest) && !old.isEmpty then
      new ++ goReplaceAux old new (old.length - 1) rest
    else c :: goReplaceAux old new 0 rest
  | _ + 1, [] => []
  | k + 1, _ :: rest => goReplaceAux old new k rest

/-- Go's `strings.Replace(s, old, new, -1)`: replace every occurrence. -/
def goReplace (s old new : String) : String :=
  String.mk (goReplaceAux old.data new.data 0 s.data)

/-- The Go slice `s[2 : len(s)-2]` used at index_stats.go line 268.
Go panics unless `0 ≤ 2 ≤ len(s)-2 ≤ len(s)`, i.e. unless `4 ≤ len(s)`;
the panic is modelled as `none`. -/
def goSliceStrip (s : String) : Option String :=
  if 4 ≤ s.length then some ((s.drop 2).dropRight 2) else none

/-- Normalization of one decoded index `o` (index_stats.go lines 242-276):
build `Fields` and `KeyString` from the key specification, set `IsShardKey`
when the shard-key registry lookup succeeds, build `EffectiveKey` by stripping
the braces and normalizing every ": -1" to ": 1", and merge the per-shard
usage records whose name matches.  `none` models the runtime panic of the
slice expression on an empty key specification. -/
def normalizeIndex (indexStats : List IndexUsage) (isShard : BDoc → Bool)
    (o : Index) : Option Index :=
  let o1 := { o with Fields := o.Key.map Prod.fst, KeyString := keyStringOf o.Key }
  let o2 := if isShard o1.Key then { o1 with IsShardKey := true } else o1
  match goSliceStrip o2.KeyString with
  | none => none
  | some inner =>
    let o3 := { o2 with EffectiveKey := goReplace inner ": -1" ": 1" }
    let hits := indexStats.filter (fun u => u.Name == o3.Name)
    some { o3 with
            Usage := hits,
            TotalOps := o3.TotalOps +
              hits.foldl (fun (a : Int) (u : IndexUsage) => a + u.Accesses.Ops) 0 }

/-- The trailing-field matching count of `checkIfDupped`
(index_stats.go lines 295-306): the number of non-first fields of `doc`
that occur at some non-first position of `o`. -/
def countTrailingMatched (docFields oFields : List String) : Nat :=
  (docFields.drop 1).countP (fun fld => (oFields.drop 1).contains fld)

/-- `checkIfDupped` (index_stats.go lines 291-313): `doc` is a duplicate if
some index `o` of the list is not itself flagged, shares the first field,
has a different `KeyString`, has at least as many fields, and every non-first
field of `doc` occurs among the non-first fields of `o`. -/
def checkIfDupped (doc : Index) (list : List Index) : Bool :=
  list.any fun o =>
    o.IsDupped == false && doc.Fields.headI == o.Fields.headI &&
      doc.KeyString != o.KeyString &&
      decide (doc.Fields.length ≤ o.Fields.length) &&
      countTrailingMatched doc.Fields o.Fields == doc.Fields.length - 1

/-- The canonical `KeyString` of the default `_id` index, `"\x7b _id: 1 \x7d"`
(index_stats.go line 280). -/
def idKeyString : String := "\x7b _id: 1 \x7d"

/-- One iteration of the duplicate-flagging loop (index_stats.go lines
279-286): position `i` is re-flagged from the current state of the list when
it is neither the `_id` index nor a shard key. -/
def markStep (list : List Index) (i : Nat) : List Index :=
  match list[i]? with
  | none => list
  | some o =>
    if o.KeyString != idKeyString && !o.IsShardKey then
      list.set i { o with IsDupped := checkIfDupped o list }
    else list

/-- The state of the duplicate-flagging loop after its first `k` iterations. -/
def dupScanState (list : List Index) (k : Nat) : List Index :=
  (List.range k).foldl markStep list

/-- The whole duplicate-flagging loop (index_stats.go lines 279-286). -/
def markDups (list : List Index) : List Index :=
  dupScanState list list.length

/-- Go's `<` on strings, on character sequences: lexicographic by code point
(equal to byte order for the ASCII strings this program builds). -/
def goStrLtChars : List Char → List Char → Bool
  | [], [] => false
  | [], _ :: _ => true
  | _ :: _, [] => false
  | a :: as, b :: bs =>
    if a.val.toNat < b.val.toNat then true
    else if b.val.toNat < a.val.toNat then false
    else goStrLtChars as bs

/-- Go's `<` on strings. -/
def goStrLt (a b : String) : Bool := goStrLtChars a.data b.data

/-- Insert an index into a list in front of the first element that is not
`EffectiveKey`-below it. -/
def insertByEffKey (a : Index) : List Index → List Index
  | [] => [a]
  | b :: l =>
    if !goStrLt b.EffectiveKey a.EffectiveKey then a :: b :: l
    else b :: insertByEffKey a l

/-- The sort of the normalized indexes by ascending `EffectiveKey`
(index_stats.go line 278, `sort.Slice` with `less = EffectiveKey <` in Go's
string order).  `sort.Slice` is an unspecified comparison sort; it is
modelled by insertion sort, which satisfies the same postcondition: a
permutation of the input in which no element is `EffectiveKey`-below its
predecessor. -/
def sortIndexes : List Index → List Index
  | [] => []
  | a :: l => insertByEffKey a (sortIndexes l)

/-- Adjacent sortedness: the second index is not `EffectiveKey`-below the
first (non-decreasing in Go's string order). -/
def effKeyNondec (a b : Index) : Prop :=
  goStrLt b.EffectiveKey a.EffectiveKey = false

/-- `GetIndexesFromCollection` (index_stats.go lines 200-288) at its interface
boundary: `usageRes` is the outcome of the `$indexStats` aggregation,
`listRes` the outcome of the `listIndexes` command (already decoded), and
`isShard` the shard-key registry lookup.  A failed aggregation is logged and
replaced by the empty usage list; a failed listing is returned to the caller.
The outer `Option` is `none` when normalization panics (empty key spec). -/
def getIndexesFromCollection (usageRes : Except String (List IndexUsage))
    (listRes : Except String (List Index)) (isShard : BDoc → Bool) :
    Option (Except String (List Index)) :=
  let indexStats : List IndexUsage :=
    match usageRes with
    | .error _ => []
    | .ok l => l
  match listRes with
  | .error e => some (.error e)
  | .ok raws =>
    match raws.mapM (normalizeIndex indexStats isShard) with
    | none => none
    | some l => some (.ok (markDups (sortIndexes l)))

/-- Everything but the `IsDupped` flag of an index (the flagging pass only
ever rewrites `IsDupped`). -/
def stripDup (o : Index) : Index := { o with IsDupped := false }

/-- `o` can serve redundancy queries for `d`: same leading field, at least as
many fields, and every trailing field of `d` among `o`'s trailing fields. -/
def covers (o d : Index) : Prop :=
  o.Fields.headI = d.Fields.headI ∧ d.Fields.length ≤ o.Fields.length ∧
    ∀ f ∈ d.Fields.tail, f ∈ o.Fields.tail

/-- Sample normalized single-field index on `a` (for concrete evaluations). -/
def sampleA : Index :=
  { Name := "a_1", Key := [("a", BVal.vint32 1)], Fields := ["a"],
    KeyString := "\x7b a: 1 \x7d", EffectiveKey := "a: 1" }

/-- Sample normalized compound index on `a, b`. -/
def sampleAB : Index :=
  { Name := "a_1_b_1", Key := [("a", BVal.vint32 1), ("b", BVal.vint32 1)],
    Fields := ["a", "b"], KeyString := "\x7b a: 1, b: 1 \x7d",
    EffectiveKey := "a: 1, b: 1" }

/-- Sample index with the same key specification as `sampleA` under another
name (a key-string collision across distinct names). -/
def sampleDupA : Index := { sampleA with Name := "a_dup" }

/-- Sample shard-key index on `a`. -/
def sampleShardA : Index := { sampleA with Name := "a_shard", IsShardKey := true }

/-- Sample normalized single-field index on `b`. -/
def sampleB1 : Index :=
  { Name := "b_1", Key := [("b", BVal.vint32 1)], Fields := ["b"],
    KeyString := "\x7b b: 1 \x7d", EffectiveKey := "b: 1" }

/-- Modelled from the spec: the `Collection` record of §3 (namespace,
name, ordered index list); its Go definition lies outside the provided
source files (only its construction at index_stats.go line 190 is visible). -/
structure Collection where
  NS : String := ""
  Name : String := ""
  Indexes : List Index := []

/-- Modelled from the spec: the `Database` record of §3 (name, ordered
collection list); constructed at index_stats.go line 148. -/
structure Database where
  Name : String := ""
  Collections : List Collection := []

/-- Modelled from the spec: the provenance metadata of a snapshot (§3: tool
version, invocation parameters, capture timestamp); the Go `Logger` type is
outside the provided source files. -/
structure Logger where
  Version : String := ""
  Params : String := ""
  CapturedAt : String := ""

/-- `IndexStats` (index_stats.go lines 27-35): the snapshot root.  The
lower-case fields are unexported in Go and therefore never serialized. -/
structure IndexStats where
  Databases : List Database := []
  Logger : Logger := {}
  filename : String := ""
  nocolor : Bool := false
  verbose : Bool := false
  version : String := ""

/-- Go's `strings.HasSuffix`, on the character sequence of the string. -/
def goHasSuffix (s sfx : String) : Bool :=
  sfx.data.isSuffixOf s.data

/-! ### Snapshot codec

`OutputBSON` marshals the snapshot with `bson.Marshal`, re-marshals it through
a generic `bson.D` (an identity transformation on the document tree), and
gzip-writes the bytes; `SetClusterDetailsFromFile` gunzip-reads and
`bson.Unmarshal`s them back.  The compressed byte level is external to the
core, so the codec is modelled on the document tree the driver exchanges:
encoding follows the struct tags and field order of the Go structs, decoding
looks fields up by name and, as `bson.Unmarshal` does, leaves a missing field
at its zero value. -/

/-- Encoding of `Accesses` per its bson tags (`ops`, `since`). -/
def encodeAccesses (a : Accesses) : BDoc :=
  [("ops", .vint a.Ops), ("since", .vtime a.Since)]

/-- Encoding of `IndexUsage`; its fields carry no bson tags, so the driver
lowercases the Go field names. -/
def encodeUsage (u : IndexUsage) : BDoc :=
  [("accesses", .vdoc (encodeAccesses u.Accesses)), ("host", .vstr u.Host),
   ("name", .vstr u.Name), ("shard", .vstr u.Shard)]

/-- A nilable `bson.D` field: the driver encodes a Go `nil` document as BSON
null. -/
def encodeOptDoc : Option BDoc → BVal
  | none => .vnull
  | some d => .vdoc d

/-- Encoding of `Index` per its bson tags, in Go struct-field order. -/
def encodeIndex (o : Index) : BDoc :=
  [("background", .vbool o.Background),
   ("collation", encodeOptDoc o.Collation),
   ("expireAfterSeconds", .vint32 o.ExpireAfterSeconds),
   ("key", .vdoc o.Key),
   ("name", .vstr o.Name),
   ("partialFilterExpression", encodeOptDoc o.PartialFilterExpression),
   ("sparse", .vbool o.Sparse),
   ("unique", .vbool o.Unique),
   ("v", .vint32 o.Version),
   ("effectiveKey", .vstr o.EffectiveKey),
   ("fields", .varr (o.Fields.map .vstr)),
   ("isDupped", .vbool o.IsDupped),
   ("isShardkey", .vbool o.IsShardKey),
   ("keyString", .vstr o.KeyString),
   ("totalOps", .vint o.TotalOps),
   ("usage", .varr (o.Usage.map (fun u => .vdoc (encodeUsage u))))]

/-- Encoding of `Collection` (modelled from the spec, lowercased names). -/
def encodeCollection (c : Collection) : BDoc :=
  [("ns", .vstr c.NS), ("name", .vstr c.Name),
   ("indexes", .varr (c.Indexes.map (fun o => .vdoc (encodeIndex o))))]

/-- Encoding of `Database` (modelled from the spec, lowercased names). -/
def encodeDatabase (db : Database) : BDoc :=
  [("name", .vstr db.Name),
   ("collections", .varr (db.Collections.map (fun c => .vdoc (encodeCollection c))))]

/-- Encoding of the provenance metadata (modelled from the spec). -/
def encodeLogger (lg : Logger) : BDoc :=
  [("version", .vstr lg.Version), ("params", .vstr lg.Params),
   ("capturedAt", .vstr lg.CapturedAt)]

/-- Encoding of the snapshot root per its bson tags (`databases`, `keyhole`);
the unexported fields are not serialized. -/
def encodeIndexStats (ix : IndexStats) : BDoc :=
  [("databases", .varr (ix.Databases.map (fun db => .vdoc (encodeDatabase db)))),
   ("keyhole", .vdoc (encodeLogger ix.Logger))]

/-- Field lookup by name in a BSON document, as `bson.Unmarshal` resolves
struct fields. -/
def blookup (d : BDoc) (k : String) : Option BVal :=
  (d.find? (fun e => e.1 == k)).map (·.2)

/-- Decode a `bool` struct field; a missing field stays at its zero value. -/
def dBool : Option BVal → Option Bool
  | none => some false
  | some (.vbool b) => some b
  | some _ => none

/-- Decode an `int32` struct field. -/
def dInt32 : Option BVal → Option Int
  | none => some 0
  | some (.vint32 n) => some n
  | some _ => none

/-- Decode an `int` struct field. -/
def dInt : Option BVal → Option Int
  | none => some 0
  | some (.vint n) => some n
  | some _ => none

/-- Decode a `time.Time` struct field. -/
def dTime : Option BVal → Option Int
  | none => some 0
  | some (.vtime n) => some n
  | some _ => none

/-- Decode a `string` struct field. -/
def dStr : Option BVal → Option String
  | none => some ""
  | some (.vstr s) => some s
  | some _ => none

/-- Decode a nilable `bson.D` struct field: BSON null decodes to Go `nil`. -/
def dOptDoc : Option BVal → Option (Option BDoc)
  | none => some none
  | some .vnull => some none
  | some (.vdoc d) => some (some d)
  | some _ => none

/-- Decode a always-populated `bson.D` struct field (the key specification). -/
def dDocF : Option BVal → Option BDoc
  | none => some []
  | some .vnull => some []
  | some (.vdoc d) => some d
  | some _ => none

/-- Decode one element of a `[]string` field. -/
def dStr1 : BVal → Option String
  | .vstr s => some s
  | _ => none

/-- Decode a `[]string` struct field. -/
def dStrArr : Option BVal → Option (List String)
  | none => some []
  | some .vnull => some []
  | some (.varr l) => l.mapM dStr1
  | some _ => none

/-- Decode `Accesses` from its document. -/
def decodeAccesses (d : BDoc) : Option Accesses := do
  let ops ← dInt (blookup d "ops")
  let since ← dTime (blookup d "since")
  pure { Ops := ops, Since := since }

/-- Decode `IndexUsage` from its document. -/
def decodeUsage (d : BDoc) : Option IndexUsage := do
  let acc ← match blookup d "accesses" with
    | none => some ({} : Accesses)
    | some (.vdoc ad) => decodeAccesses ad
    | some _ => none
  let host ← dStr (blookup d "host")
  let name ← dStr (blookup d "name")
  let shard ← dStr (blookup d "shard")
  pure { Accesses := acc, Host := host, Name := name, Shard := shard }

/-- Decode one element of a `[]IndexUsage` field. -/
def dUsage1 : BVal → Option IndexUsage
  | .vdoc d => decodeUsage d
  | _ => none

/-- Decode a `[]IndexUsage` struct field. -/
def dUsageArr : Option BVal → Option (List IndexUsage)
  | none => some []
  | some .vnull => some []
  | some (.varr l) => l.mapM dUsage1
  | some _ => none

/-- Decode `Index` from its document. -/
def decodeIndex (d : BDoc) : Option Index := do
  let background ← dBool (blookup d "background")
  let collation ← dOptDoc (blookup d "collation")
  let expire ← dInt32 (blookup d "expireAfterSeconds")
  let key ← dDocF (blookup d "key")
  let name ← dStr (blookup d "name")
  let pfe ← dOptDoc (blookup d "partialFilterExpression")
  let sparse ← dBool (blookup d "sparse")
  let uniq ← dBool (blookup d "unique")
  let ver ← dInt32 (blookup d "v")
  let effectiveKey ← dStr (blookup d "effectiveKey")
  let fields ← dStrArr (blookup d "fields")
  let isDupped ← dBool (blookup d "isDupped")
  let isShardKey ← dBool (blookup d "isShardkey")
  let keyString ← dStr (blookup d "keyString")
  let totalOps ← dInt (blookup d "totalOps")
  let usage ← dUsageArr (blookup d "usage")
  pure { Background := background, Collation := collation,
         ExpireAfterSeconds := expire, Key := key, Name := name,
         PartialFilterExpression := pfe, Sparse := sparse, Unique := uniq,
         Version := ver, EffectiveKey := effectiveKey, Fields := fields,
         IsDupped := isDupped, IsShardKey := isShardKey, KeyString := keyString,
         TotalOps := totalOps, Usage := usage }

/-- Decode one element of a `[]Index` field. -/
def dIndex1 : BVal → Option Index
  | .vdoc d => decodeIndex d
  | _ => none

/-- Decode a `[]Index` struct field. -/
def dIndexArr : Option BVal → Option (List Index)
  | none => some []
  | some .vnull => some []
  | some (.varr l) => l.mapM dIndex1
  | some _ => none

/-- Decode `Collection` from its document. -/
def decodeCollection (d : BDoc) : Option Collection := do
  let ns ← dStr (blookup d "ns")
  let name ← dStr (blookup d "name")
  let indexes ← dIndexArr (blookup d "indexes")
  pure { NS := ns, Name := name, Indexes := indexes }

/-- Decode one element of a `[]Collection` field. -/
def dColl1 : BVal → Option Collection
  | .vdoc d => decodeCollection d
  | _ => none

/-- Decode a `[]Collection` struct field. -/
def dCollArr : Option BVal → Option (List Collection)
  | none => some []
  | some .vnull => some []
  | some (.varr l) => l.mapM dColl1
  | some _ => none

/-- Decode `Database` from its document. -/
def decodeDatabase (d : BDoc) : Option Database := do
  let name ← dStr (blookup d "name")
  let colls ← dCollArr (blookup d "collections")
  pure { Name := name, Collections := colls }

/-- Decode one element of a `[]Database` field. -/
def dDb1 : BVal → Option Database
  | .vdoc d => decodeDatabase d
  | _ => none

/-- Decode a `[]Database` struct field. -/
def dDbArr : Option BVal → Option (List Database)
  | none => some []
  | some .vnull => some []
  | some (.varr l) => l.mapM dDb1
  | some _ => none

/-- Decode the provenance metadata from its document. -/
def decodeLogger (d : BDoc) : Option Logger := do
  let ver ← dStr (blookup d "version")
  let params ← dStr (blookup d "params")
  let capturedAt ← dStr (blookup d "capturedAt")
  pure { Version := ver, Params := params, CapturedAt := capturedAt }

/-- `bson.Unmarshal(data, &ix)`: decode the snapshot document into the
receiver `ix`; exported fields present in the document are overwritten,
missing ones and the unexported fields keep the receiver's values. -/
def decodeIndexStats (d : BDoc) (ix : IndexStats) : Option IndexStats := do
  let dbs ← match blookup d "databases" with
    | none => some ix.Databases
    | some v => dDbArr (some v)
  let lg ← match blookup d "keyhole" with
    | none => some ix.Logger
    | some (.vdoc ld) => decodeLogger ld
    | some _ => none
  pure { ix with Databases := dbs, Logger := lg }

/-- `OutputBSON` (index_stats.go lines 316-334): marshal the snapshot,
re-marshal it through a generic `bson.D` (identity on the document tree), and
write it gzipped to `./out/<filename>`; modelled as the produced
(path, document) pair. -/
def outputBSON (ix : IndexStats) : String × BDoc :=
  ("./out/" ++ ix.filename, encodeIndexStats ix)

/-- `SetClusterDetailsFromFile` (index_stats.go lines 96-111): reject any
filename without one of the two recognized suffixes before touching the file,
then read and `bson.Unmarshal` into the receiver.  `contents` is the outcome
of the gzip read: `none` when opening or reading the file fails. -/
def setClusterDetailsFromFile (ix : IndexStats) (filename : String)
    (contents : Option BDoc) : Except String IndexStats :=
  if goHasSuffix filename "-index.bson.gz" == false &&
      goHasSuffix filename "-stats.bson.gz" == false then
    .error "unsupported file type"
  else
    match contents with
    | none => .error "file read error"
    | some d =>
      match decodeIndexStats d ix with
      | none => .error "bson unmarshal error"
      | some ix2 => .ok ix2

/-- Sample index exercising every optional property (TTL, collation, partial
filter, sparse, unique, background) and carrying a usage record. -/
def sampleTTLIndex : Index :=
  { Background := true,
    Collation := some [("locale", BVal.vstr "en")],
    ExpireAfterSeconds := 3600,
    Key := [("a", BVal.vint32 1)],
    Name := "a_ttl",
    PartialFilterExpression := some [("a", BVal.vdoc [("$gt", BVal.vint 5)])],
    Sparse := true, Unique := true, Version := 2,
    EffectiveKey := "a: 1", Fields := ["a"],
    IsDupped := false, IsShardKey := false,
    KeyString := "\x7b a: 1 \x7d", TotalOps := 7,
    Usage := [{ Accesses := { Ops := 7, Since := 1700000000000 },
                Host := "h1:27017", Name := "a_ttl", Shard := "s1" }] }

/-- Sample snapshot holding `sampleTTLIndex`, for concrete evaluations of the
codec. -/
def sampleSnapshot : IndexStats :=
  { Databases := [{ Name := "db1",
                    Collections := [{ NS := "db1.c1", Name := "c1",
                                      Indexes := [sampleTTLIndex] }] }],
    Logger := { Version := "1.0", Params := "-index",
                CapturedAt := "2020-01-01T00:00:00Z" },
    filename := "myhost-index.bson.gz" }

/-! ### Properties of the duplicate-flagging pass -/

theorem markStep_length (l : List Index) (i : Nat) :
    (markStep l i).length = l.length := by
  unfold markStep
  cases h : l[i]? with
  | none => rfl
  | some o =>
    dsimp only
    split
    · exact List.length_set l i _
    · rfl

theorem dupScanState_succ (l : List Index) (k : Nat) :
    dupScanState l (k + 1) = markStep (dupScanState l k) k := by
  unfold dupScanState
  rw [List.range_succ, List.foldl_append]
  rfl

theorem dupScanState_length (l : List Index) (k : Nat) :
    (dupScanState l k).length = l.length := by
  induction k with
  | zero => rfl
  | succ k ih => rw [dupScanState_succ, markStep_length, ih]

theorem markDups_length (l : List Index) : (markDups l).length = l.length :=
  dupScanState_length l l.length

theorem markStep_getElem?_ne (l : List Index) (i j : Nat) (h : ¬ i = j) :
    (markStep l i)[j]? = l[j]? := by
  unfold markStep
  cases hi : l[i]? with
  | none => rfl
  | some o =>
    dsimp only
    split
    · exact List.getElem?_set_ne h
    · rfl

theorem dupScanState_getElem?_of_le (l : List Index) (j k : Nat) (h : k ≤ j) :
    (dupScanState l k)[j]? = l[j]? := by
  induction k with
  | zero => rfl
  | succ k ih =>
    rw [dupScanState_succ, markStep_getElem?_ne _ _ _ (by omega), ih (by omega)]

theorem dupScanState_getElem?_stable (l : List Index) (j k : Nat) (h : j < k) :
    (dupScanState l k)[j]? = (dupScanState l (j + 1))[j]? := by
  induction k with
  | zero => omega
  | succ k ih =>
    rcases Nat.lt_or_ge j k with hk | hk
    · rw [dupScanState_succ, markStep_getElem?_ne _ _ _ (by omega), ih hk]
    · have hjk : j = k := by omega
      subst hjk
      rfl

theorem markStep_getElem?_self (l : List Index) (i : Nat) (o : Index)
    (h : l[i]? = some o) :
    (markStep l i)[i]? = some (if o.KeyString != idKeyString && !o.IsShardKey
      then { o with IsDupped := checkIfDupped o l } else o) := by
  have hi : i < l.length := by
    rcases List.getElem?_eq_some.mp h with ⟨hlt, _⟩
    exact hlt
  unfold markStep
  rw [h]
  dsimp only
  by_cases hg : (o.KeyString != idKeyString && !o.IsShardKey) = true
  · rw [if_pos hg, if_pos hg, List.getElem?_set_self hi]
  · rw [if_neg hg, if_neg hg, h]

/-- The value of the finished pass at position `i`: when position `i` is
neither the `_id` index nor a shard key it is re-flagged from the scan state
reached just before its own iteration. -/
theorem markDups_getElem? (l : List Index) (i : Nat) (o : Index)
    (h : l[i]? = some o) :
    (markDups l)[i]? = some (if o.KeyString != idKeyString && !o.IsShardKey
      then { o with IsDupped := checkIfDupped o (dupScanState l i) } else o) := by
  have hi : i < l.length := by
    rcases List.getElem?_eq_some.mp h with ⟨hlt, _⟩
    exact hlt
  unfold markDups
  rw [dupScanState_getElem?_stable l i l.length hi, dupScanState_succ]
  exact markStep_getElem?_self _ i o
    (by rw [dupScanState_getElem?_of_le l i i (Nat.le_refl i)]; exact h)

theorem stripDup_markStep (l : List Index) (i j : Nat) :
    ((markStep l i)[j]?).map stripDup = (l[j]?).map stripDup := by
  by_cases hij : i = j
  · subst hij
    cases h : l[i]? with
    | none => simp [markStep, h]
    | some o =>
      rw [markStep_getElem?_self l i o h]
      simp only [h, Option.map_some']
      by_cases hg : (o.KeyString != idKeyString && !o.IsShardKey) = true
      · rw [if_pos hg]
        simp [stripDup]
      · rw [if_neg hg]
  · rw [markStep_getElem?_ne l i j hij]

theorem stripDup_dupScanState (l : List Index) (k j : Nat) :
    ((dupScanState l k)[j]?).map stripDup = (l[j]?).map stripDup := by
  induction k with
  | zero => rfl
  | succ k ih => rw [dupScanState_succ, stripDup_markStep, ih]

theorem markDups_getElem?_inv (l : List Index) (i : Nat) (d : Index)
    (h : (markDups l)[i]? = some d) :
    ∃ doc, l[i]? = some doc ∧ stripDup doc = stripDup d := by
  have hs := stripDup_dupScanState l l.length i
  rw [show dupScanState l l.length = markDups l from rfl, h] at hs
  cases hl : l[i]? with
  | none => rw [hl] at hs; exact absurd hs (by simp)
  | some doc =>
    rw [hl] at hs
    simp only [Option.map_some'] at hs
    exact ⟨doc, rfl, (Option.some.inj hs).symm⟩

theorem countTrailingMatched_iff (docFields oFields : List String) :
    (countTrailingMatched docFields oFields == docFields.length - 1) = true ↔
      ∀ f ∈ docFields.tail, f ∈ oFields.tail := by
  rw [beq_iff_eq, countTrailingMatched]
  have hlen : (docFields.drop 1).length = docFields.length - 1 := by
    simp [List.length_drop]
  rw [← hlen, List.countP_eq_length, List.drop_one, List.drop_one]
  constructor
  · intro h f hf
    exact List.elem_iff.mp (h f hf)
  · intro h f hf
    exact List.elem_iff.mpr (h f hf)

/-- The search of `checkIfDupped`, as a predicate: some index of the list is
not itself flagged, shares the first field, has a different key string, has at
least as many fields, and its trailing fields contain all of `doc`'s. -/
theorem checkIfDupped_iff (doc : Index) (list : List Index) :
    checkIfDupped doc list = true ↔
      ∃ o ∈ list, o.IsDupped = false ∧ doc.Fields.headI = o.Fields.headI ∧
        doc.KeyString ≠ o.KeyString ∧ doc.Fields.length ≤ o.Fields.length ∧
        ∀ f ∈ doc.Fields.tail, f ∈ o.Fields.tail := by
  unfold checkIfDupped
  rw [List.any_eq_true]
  apply exists_congr
  intro o
  rw [and_congr_right_iff]
  intro _
  rw [Bool.and_eq_true, Bool.and_eq_true, Bool.and_eq_true, Bool.and_eq_true]
  rw [countTrailingMatched_iff]
  rw [beq_iff_eq, beq_iff_eq, bne_iff_ne, decide_eq_true_eq]
  constructor
  · rintro ⟨⟨⟨⟨h1, h2⟩, h3⟩, h4⟩, h5⟩
    exact ⟨h1, h2, h3, h4, h5⟩
  · rintro ⟨h1, h2, h3, h4, h5⟩
    exact ⟨⟨⟨⟨h1, h2⟩, h3⟩, h4⟩, h5⟩

/-! ### Claim C1 -/

/-- **C1**: in a collection's normalized index list, an index `D` that is
neither the `_id` index nor a shard key ends the pass flagged duplicate iff,
in the scan state reached just before `D`'s own iteration, some index `O`
exists that is not (yet) flagged, shares `D`'s first field, has a different
`KeyString`, has at least as many fields, and whose non-first fields include
every non-first field of `D`. -/
theorem flagged_iff_exists_unflagged_superset (l : List Index) (i : Nat)
    (doc res : Index) (hdoc : l[i]? = some doc)
    (hres : (markDups l)[i]? = some res)
    (hid : doc.KeyString ≠ idKeyString) (hsh : doc.IsShardKey = false) :
    res.IsDupped = true ↔
      ∃ o ∈ dupScanState l i, o.IsDupped = false ∧
        doc.Fields.headI = o.Fields.headI ∧ doc.KeyString ≠ o.KeyString ∧
        doc.Fields.length ≤ o.Fields.length ∧
        ∀ f ∈ doc.Fields.tail, f ∈ o.Fields.tail := by
  have hg : (doc.KeyString != idKeyString && !doc.IsShardKey) = true := by
    simp [bne_iff_ne, hid, hsh]
  have h := markDups_getElem? l i doc hdoc
  rw [hres, if_pos hg] at h
  have hres_eq : res = { doc with IsDupped := checkIfDupped doc (dupScanState l i) } :=
    Option.some.inj h
  rw [hres_eq]
  exact checkIfDupped_iff doc (dupScanState l i)

/-- Witness for C1: in `[sampleA, sampleAB]` the single-field index is
flagged, and the characterization applies to it concretely. -/
theorem flagged_iff_exists_unflagged_superset_witness :
    [sampleA, sampleAB][0]? = some sampleA ∧ sampleA.KeyString ≠ idKeyString ∧
      sampleA.IsShardKey = false ∧
      ∃ res, (markDups [sampleA, sampleAB])[0]? = some res ∧
        (res.IsDupped = true ↔ ∃ o ∈ dupScanState [sampleA, sampleAB] 0,
          o.IsDupped = false ∧ sampleA.Fields.headI = o.Fields.headI ∧
          sampleA.KeyString ≠ o.KeyString ∧
          sampleA.Fields.length ≤ o.Fields.length ∧
          ∀ f ∈ sampleA.Fields.tail, f ∈ o.Fields.tail) := by
  refine ⟨rfl, by decide, rfl, { sampleA with IsDupped := true }, rfl, ?_⟩
  exact flagged_iff_exists_unflagged_superset [sampleA, sampleAB] 0 sampleA
    { sampleA with IsDupped := true } rfl rfl (by decide) rfl

/-! ### Claim C3 -/

/-- **C3**: an index whose `KeyString` is the `_id` key string, or whose
`IsShardKey` flag is set, is never flagged duplicate by the pass (its flag
keeps its decoded value, `false`). -/
theorem id_and_shard_never_flagged (l : List Index)
    (hinit : ∀ o ∈ l, o.IsDupped = false) (i : Nat) (doc res : Index)
    (hdoc : l[i]? = some doc) (hres : (markDups l)[i]? = some res)
    (hcond : doc.KeyString = idKeyString ∨ doc.IsShardKey = true) :
    res.IsDupped = false := by
  have hg : (doc.KeyString != idKeyString && !doc.IsShardKey) = false := by
    rcases hcond with hc | hc <;> simp [hc]
  have h := markDups_getElem? l i doc hdoc
  rw [hres, hg] at h
  simp only [Bool.false_eq_true, if_false] at h
  have hres_eq : res = doc := Option.some.inj h
  rw [hres_eq]
  exact hinit doc (List.getElem?_mem hdoc)

/-- Witness for C3: the shard-key index on `a` would be subsumed by the
compound index on `a, b`, yet stays unflagged. -/
theorem id_and_shard_never_flagged_witness :
    (∀ o ∈ [sampleShardA, sampleAB], o.IsDupped = false) ∧
      [sampleShardA, sampleAB][0]? = some sampleShardA ∧
      (sampleShardA.KeyString = idKeyString ∨ sampleShardA.IsShardKey = true) ∧
      ∃ res, (markDups [sampleShardA, sampleAB])[0]? = some res ∧
        res.IsDupped = false := by
  refine ⟨by decide, rfl, by decide, sampleShardA, rfl, ?_⟩
  exact id_and_shard_never_flagged [sampleShardA, sampleAB] (by decide) 0
    sampleShardA sampleShardA rfl rfl (by decide)

/-! ### Claim C4 -/

/-- Removing an already-false `IsDupped` assignment is the identity. -/
theorem setDup_eta (o : Index) (h : o.IsDupped = false) :
    { o with IsDupped := false } = o := by
  cases o
  subst h
  rfl

/-- **C4 counterexample**: two distinct indexes with the same key
specification (hence the same `KeyString`) run through the collector; neither
gets flagged duplicate, because `checkIfDupped` requires the key strings to
differ. -/
theorem same_keystring_pair_unflagged_cex :
    getIndexesFromCollection (Except.ok []) (Except.ok
        [{ Key := [("a", BVal.vint32 1)], Name := "a_1" },
         { Key := [("a", BVal.vint32 1)], Name := "a_dup" }]) (fun _ => false)
      = some (Except.ok [sampleA, sampleDupA]) ∧
    sampleA.KeyString = sampleDupA.KeyString ∧ sampleA.Name ≠ sampleDupA.Name ∧
    sampleA.IsDupped = false ∧ sampleDupA.IsDupped = false :=
  ⟨rfl, rfl, by decide, rfl, rfl⟩

/-- **C4 amended**: two distinct unflagged indexes with equal `KeyString`
are *not* treated as a duplicate pair: the comparison requires different key
strings, so in a collection holding only the two of them the pass flags
neither. -/
theorem same_keystring_pair_unflagged (I J : Index)
    (hks : I.KeyString = J.KeyString)
    (hI : I.IsDupped = false) (hJ : J.IsDupped = false) :
    markDups [I, J] = [I, J] := by
  have hcI : checkIfDupped I [I, J] = false := by
    simp [checkIfDupped, hks]
  have hcJ : checkIfDupped J [I, J] = false := by
    simp [checkIfDupped, hks]
  have h0 : markStep [I, J] 0 = [I, J] := by
    show (if I.KeyString != idKeyString && !I.IsShardKey then
        [I, J].set 0 { I with IsDupped := checkIfDupped I [I, J] }
      else [I, J]) = [I, J]
    rw [hcI, setDup_eta I hI]
    split <;> rfl
  have h1 : markStep [I, J] 1 = [I, J] := by
    show (if J.KeyString != idKeyString && !J.IsShardKey then
        [I, J].set 1 { J with IsDupped := checkIfDupped J [I, J] }
      else [I, J]) = [I, J]
    rw [hcJ, setDup_eta J hJ]
    split <;> rfl
  show dupScanState [I, J] 2 = [I, J]
  rw [dupScanState_succ, dupScanState_succ]
  show markStep (markStep [I, J] 0) 1 = [I, J]
  rw [h0, h1]

/-- Witness for the amended C4. -/
theorem same_keystring_pair_unflagged_witness :
    sampleA.KeyString = sampleDupA.KeyString ∧ sampleA.IsDupped = false ∧
      sampleDupA.IsDupped = false ∧
      markDups [sampleA, sampleDupA] = [sampleA, sampleDupA] :=
  ⟨rfl, rfl, rfl, same_keystring_pair_unflagged sampleA sampleDupA rfl rfl rfl⟩

/-! ### Claim C9 -/

theorem covers_trans {a b c : Index} (h1 : covers a b) (h2 : covers b c) :
    covers a c :=
  ⟨h1.1.trans h2.1, Nat.le_trans h2.2.1 h1.2.1,
    fun f hf => h1.2.2 f (h2.2.2 f hf)⟩

theorem covers_congr {o o' d d' : Index} (ho : o.Fields = o'.Fields)
    (hd : d.Fields = d'.Fields) : covers o d ↔ covers o' d' := by
  unfold covers
  rw [ho, hd]

theorem stripDup_fields {a b : Index} (h : stripDup a = stripDup b) :
    a.Fields = b.Fields := by
  have h2 := congrArg Index.Fields h
  simpa [stripDup] using h2

/-- Downward recursion for the survivor property: any index flagged by the
pass is covered by some index left unflagged in the final list. -/
theorem survivor_aux (l : List Index) (hinit : ∀ o ∈ l, o.IsDupped = false) :
    ∀ (m i : Nat) (d : Index), l.length - i ≤ m →
      (markDups l)[i]? = some d → d.IsDupped = true →
      ∃ (j : Nat) (s : Index), (markDups l)[j]? = some s ∧ s.IsDupped = false ∧
        covers s d := by
  intro m
  induction m with
  | zero =>
    intro i d hm hd _
    have hi : i < (markDups l).length := (List.getElem?_eq_some.mp hd).1
    rw [markDups_length] at hi
    omega
  | succ m ih =>
    intro i d hm hd hflag
    obtain ⟨doc, hdoc, _⟩ := markDups_getElem?_inv l i d hd
    have hstep := markDups_getElem? l i doc hdoc
    rw [hd] at hstep
    by_cases hg : (doc.KeyString != idKeyString && !doc.IsShardKey) = true
    · rw [if_pos hg] at hstep
      have hdval : d = { doc with IsDupped := checkIfDupped doc (dupScanState l i) } :=
        Option.some.inj hstep
      have hchk : checkIfDupped doc (dupScanState l i) = true := by
        rw [hdval] at hflag
        exact hflag
      obtain ⟨o, homem, hound, hhead, hkne, hlen, htail⟩ :=
        (checkIfDupped_iff doc (dupScanState l i)).mp hchk
      obtain ⟨j, hoj⟩ := List.mem_iff_getElem?.mp homem
      have hjlen : j < l.length := by
        have := (List.getElem?_eq_some.mp hoj).1
        rwa [dupScanState_length] at this
      have hdfields : d.Fields = doc.Fields := by rw [hdval]
      have hcov : covers o d := by
        refine ⟨?_, ?_, ?_⟩
        · rw [hdfields]; exact hhead.symm
        · rw [hdfields]; exact hlen
        · rw [hdfields]; exact htail
      rcases Nat.lt_trichotomy j i with hji | hji | hji
      · have hfin : (markDups l)[j]? = some o := by
          show (dupScanState l l.length)[j]? = some o
          rw [dupScanState_getElem?_stable l j l.length hjlen,
            ← dupScanState_getElem?_stable l j i hji]
          exact hoj
        exact ⟨j, o, hfin, hound, hcov⟩
      · subst hji
        rw [dupScanState_getElem?_of_le l j j (Nat.le_refl j), hdoc] at hoj
        have hodoc : doc = o := Option.some.inj hoj
        exact absurd (congrArg Index.KeyString hodoc) hkne
      · have hlj : l[j]? = some o := by
          rw [← dupScanState_getElem?_of_le l j i (Nat.le_of_lt hji)]
          exact hoj
        cases hfj : (markDups l)[j]? with
        | none =>
          have := List.getElem?_eq_none_iff.mp hfj
          rw [markDups_length] at this
          omega
        | some fj =>
          have hfjstrip : stripDup fj = stripDup o := by
            have hs := stripDup_dupScanState l l.length j
            rw [show dupScanState l l.length = markDups l from rfl, hfj, hlj] at hs
            simp only [Option.map_some'] at hs
            exact Option.some.inj hs
          have hofields : fj.Fields = o.Fields := stripDup_fields hfjstrip
          cases hfd : fj.IsDupped with
          | false =>
            exact ⟨j, fj, hfj, hfd, (covers_congr hofields.symm rfl).mp hcov⟩
          | true =>
            obtain ⟨j2, s, hs2, hsd, hscov⟩ := ih j fj (by omega) hfj hfd
            exact ⟨j2, s, hs2, hsd,
              covers_trans hscov ((covers_congr hofields.symm rfl).mp hcov)⟩
    · rw [if_neg hg] at hstep
      have hres_eq : d = doc := Option.some.inj hstep
      rw [hres_eq, hinit doc (List.getElem?_mem hdoc)] at hflag
      simp at hflag

/-- **C9**: flagging is consulted during the pass — a covering index must be
unflagged at the moment it is used — and consequently every index flagged by
the pass is covered by an index that remains unflagged in the final list
(each redundancy cluster keeps a surviving representative). -/
theorem dup_flagging_one_way_and_survivor (l : List Index)
    (hinit : ∀ o ∈ l, o.IsDupped = false) :
    (∀ doc list, checkIfDupped doc list = true →
        ∃ o ∈ list, o.IsDupped = false ∧ doc.KeyString ≠ o.KeyString ∧
          covers o doc) ∧
    (∀ (i : Nat) (d : Index), (markDups l)[i]? = some d → d.IsDupped = true →
        ∃ (j : Nat) (s : Index), (markDups l)[j]? = some s ∧
          s.IsDupped = false ∧ covers s d) := by
  constructor
  · intro doc list hchk
    obtain ⟨o, hmem, h1, h2, h3, h4, h5⟩ := (checkIfDupped_iff doc list).mp hchk
    exact ⟨o, hmem, h1, h3, h2.symm, h4, h5⟩
  · intro i d hd hflag
    exact survivor_aux l hinit l.length i d (by omega) hd hflag

/-- Witness for C9: in `[sampleA, sampleAB]` the flagged single-field index
has the surviving compound index covering it. -/
theorem dup_flagging_one_way_and_survivor_witness :
    (∀ o ∈ [sampleA, sampleAB], o.IsDupped = false) ∧
      ∃ (j : Nat) (s : Index), (markDups [sampleA, sampleAB])[j]? = some s ∧
        s.IsDupped = false ∧ covers s { sampleA with IsDupped := true } := by
  refine ⟨by decide, ?_⟩
  exact (dup_flagging_one_way_and_survivor [sampleA, sampleAB] (by decide)).2 0
    { sampleA with IsDupped := true } rfl rfl

/-! ### Claim C5 -/

/-- **C5**: loading a snapshot from a filename that carries neither
recognized suffix fails with the "unsupported file type" error regardless of
the file's contents (the check precedes any read or decode), and no state is
produced. -/
theorem load_rejects_bad_suffix (ix : IndexStats) (filename : String)
    (contents : Option BDoc)
    (h1 : goHasSuffix filename "-index.bson.gz" = false)
    (h2 : goHasSuffix filename "-stats.bson.gz" = false) :
    setClusterDetailsFromFile ix filename contents =
      Except.error "unsupported file type" := by
  unfold setClusterDetailsFromFile
  rw [h1, h2]
  rfl

/-- Witness for C5: a `.txt` filename is rejected. -/
theorem load_rejects_bad_suffix_witness :
    goHasSuffix "snapshot.txt" "-index.bson.gz" = false ∧
      goHasSuffix "snapshot.txt" "-stats.bson.gz" = false ∧
      setClusterDetailsFromFile {} "snapshot.txt" (some [("databases", BVal.vnull)]) =
        Except.error "unsupported file type" :=
  ⟨rfl, rfl, load_rejects_bad_suffix {} "snapshot.txt" _ rfl rfl⟩

/-! ### Claim C6 -/

/-- **C6**: a failed usage aggregation degrades to the empty usage list and
the collector still answers; a failed `listIndexes` command is returned to
the caller as the error itself. -/
theorem usage_nonfatal_listing_fatal :
    (∀ (e : String) (listRes : Except String (List Index)) (isShard : BDoc → Bool),
        getIndexesFromCollection (Except.error e) listRes isShard =
          getIndexesFromCollection (Except.ok []) listRes isShard) ∧
    (∀ (usageRes : Except String (List IndexUsage)) (e : String)
        (isShard : BDoc → Bool),
        getIndexesFromCollection usageRes (Except.error e) isShard =
          some (Except.error e)) ∧
    (∀ (e : String) (raws nl : List Index) (isShard : BDoc → Bool),
        raws.mapM (normalizeIndex [] isShard) = some nl →
        getIndexesFromCollection (Except.error e) (Except.ok raws) isShard =
          some (Except.ok (markDups (sortIndexes nl)))) := by
  refine ⟨fun e listRes isShard => rfl, fun usageRes e isShard => ?_,
    fun e raws nl isShard h => ?_⟩
  · cases usageRes <;> rfl
  · show (match raws.mapM (normalizeIndex [] isShard) with
      | none => none
      | some l => some (Except.ok (markDups (sortIndexes l)))) =
        some (Except.ok (markDups (sortIndexes nl)))
    rw [h]

/-- Witness for C6: a failed aggregation still yields the index list; a
failed listing escalates. -/
theorem usage_nonfatal_listing_fatal_witness :
    getIndexesFromCollection (Except.error "agg failed")
        (Except.ok [{ Key := [("a", BVal.vint32 1)], Name := "a_1" }])
        (fun _ => false)
      = some (Except.ok (markDups (sortIndexes [sampleA]))) ∧
    getIndexesFromCollection (Except.ok []) (Except.error "list failed")
        (fun _ => false)
      = some (Except.error "list failed") :=
  ⟨usage_nonfatal_listing_fatal.2.2 "agg failed"
      [{ Key := [("a", BVal.vint32 1)], Name := "a_1" }] [sampleA]
      (fun _ => false) rfl,
    usage_nonfatal_listing_fatal.2.1 (Except.ok []) "list failed"
      (fun _ => false)⟩

/-! ### Claim C7 -/

theorem goStrLtChars_asymm :
    ∀ x y, goStrLtChars x y = true → goStrLtChars y x = false := by
  intro x
  induction x with
  | nil =>
    intro y h
    cases y with
    | nil => simp [goStrLtChars] at h
    | cons b bs => simp [goStrLtChars]
  | cons a as ih =>
    intro y h
    cases y with
    | nil => simp [goStrLtChars] at h
    | cons b bs =>
      simp only [goStrLtChars] at h ⊢
      by_cases h1 : a.val.toNat < b.val.toNat
      · rw [if_neg (by omega), if_pos h1]
      · by_cases h2 : b.val.toNat < a.val.toNat
        · rw [if_neg h1, if_pos h2] at h
          exact absurd h (by simp)
        · rw [if_neg h1, if_neg h2] at h
          rw [if_neg h2, if_neg h1]
          exact ih bs h

theorem goStrLtChars_split :
    ∀ x y z, goStrLtChars z x = true →
      goStrLtChars z y = true ∨ goStrLtChars y x = true := by
  intro x
  induction x with
  | nil =>
    intro y z h
    cases z with
    | nil => simp [goStrLtChars] at h
    | cons c cs => simp [goStrLtChars] at h
  | cons a as ih =>
    intro y z h
    cases y with
    | nil =>
      right
      cases z <;> simp [goStrLtChars]
    | cons b bs =>
      cases z with
      | nil =>
        left
        simp [goStrLtChars]
      | cons c cs =>
        simp only [goStrLtChars] at h ⊢
        by_cases hca : c.val.toNat < a.val.toNat
        · by_cases hcb : c.val.toNat < b.val.toNat
          · left; rw [if_pos hcb]
          · right
            rw [if_pos (show b.val.toNat < a.val.toNat by omega)]
        · by_cases hac : a.val.toNat < c.val.toNat
          · rw [if_neg hca, if_pos hac] at h
            exact absurd h (by simp)
          · rw [if_neg hca, if_neg hac] at h
            by_cases hcb : c.val.toNat < b.val.toNat
            · left; rw [if_pos hcb]
            · by_cases hbc : b.val.toNat < c.val.toNat
              · right
                rw [if_pos (show b.val.toNat < a.val.toNat by omega)]
              · rcases ih bs cs h with hl | hr
                · left
                  rw [if_neg hcb, if_neg hbc]
                  exact hl
                · right
                  rw [if_neg (show ¬ b.val.toNat < a.val.toNat by omega),
                    if_neg (show ¬ a.val.toNat < b.val.toNat by omega)]
                  exact hr

theorem insertByEffKey_head? (a : Index) (l : List Index) :
    (insertByEffKey a l).head? = some a ∨ (insertByEffKey a l).head? = l.head? := by
  cases l with
  | nil => left; rfl
  | cons b t =>
    unfold insertByEffKey
    split
    · left; rfl
    · right; rfl

theorem chain'_insertByEffKey (a : Index) :
    ∀ l, List.Chain' effKeyNondec l →
      List.Chain' effKeyNondec (insertByEffKey a l) := by
  intro l
  induction l with
  | nil => intro _; simp [insertByEffKey]
  | cons b t ih =>
    intro hc
    by_cases hlt : goStrLt b.EffectiveKey a.EffectiveKey = true
    · have heq : insertByEffKey a (b :: t) = b :: insertByEffKey a t := by
        simp [insertByEffKey, hlt]
      rw [heq, List.chain'_cons']
      refine ⟨?_, ih (List.Chain'.tail hc)⟩
      intro h hh
      rcases insertByEffKey_head? a t with hh' | hh'
      · rw [hh'] at hh
        have ha : h = a := by
          cases hh
          rfl
        rw [ha]
        exact goStrLtChars_asymm _ _ hlt
      · rw [hh'] at hh
        exact (List.chain'_cons'.mp hc).1 h hh
    · have hfalse : goStrLt b.EffectiveKey a.EffectiveKey = false := by
        cases hcc : goStrLt b.EffectiveKey a.EffectiveKey
        · rfl
        · exact absurd hcc hlt
      have heq : insertByEffKey a (b :: t) = a :: b :: t := by
        simp [insertByEffKey, hfalse]
      rw [heq]
      exact List.chain'_cons.mpr ⟨hfalse, hc⟩

theorem chain'_sortIndexes (l : List Index) :
    List.Chain' effKeyNondec (sortIndexes l) := by
  induction l with
  | nil => simp [sortIndexes]
  | cons a t ih => exact chain'_insertByEffKey a _ ih

theorem markDups_map_effectiveKey (l : List Index) :
    (markDups l).map Index.EffectiveKey = l.map Index.EffectiveKey := by
  apply List.ext_getElem?
  intro n
  rw [List.getElem?_map, List.getElem?_map]
  cases h1 : (markDups l)[n]? with
  | none =>
    have hlen := List.getElem?_eq_none_iff.mp h1
    rw [markDups_length] at hlen
    rw [List.getElem?_eq_none hlen]
  | some d =>
    obtain ⟨doc, hdoc, hstrip⟩ := markDups_getElem?_inv l n d h1
    rw [hdoc]
    simp only [Option.map_some']
    have heff := congrArg Index.EffectiveKey hstrip
    simp only [stripDup] at heff
    rw [heff]

theorem chain'_markDups (l : List Index) (h : List.Chain' effKeyNondec l) :
    List.Chain' effKeyNondec (markDups l) := by
  have h1 : List.Chain' (fun x y : String => goStrLt y x = false)
      (l.map Index.EffectiveKey) := by
    rw [List.chain'_map]
    exact h
  rw [← markDups_map_effectiveKey] at h1
  rw [List.chain'_map] at h1
  exact h1

/-- **C7**: every successfully collected index list is sorted so that no
index is `EffectiveKey`-below its predecessor (ascending `EffectiveKey` in
Go's string order), and the duplicate-flagging pass runs on (and preserves)
that sorted order. -/
theorem collector_output_sorted (usageRes : Except String (List IndexUsage))
    (listRes : Except String (List Index)) (isShard : BDoc → Bool)
    (out : List Index)
    (h : getIndexesFromCollection usageRes listRes isShard =
      some (Except.ok out)) :
    List.Chain' effKeyNondec out := by
  rcases listRes with e | raws
  · have h2 : some (Except.error e) = some (Except.ok out) := h
    simp at h2
  · have hred : ∀ (stats : List IndexUsage),
        (match raws.mapM (normalizeIndex stats isShard) with
          | none => (none : Option (Except String (List Index)))
          | some l => some (Except.ok (markDups (sortIndexes l)))) =
          some (Except.ok out) →
        List.Chain' effKeyNondec out := by
      intro stats hx
      cases hm : raws.mapM (normalizeIndex stats isShard) with
      | none => rw [hm] at hx; simp at hx
      | some nl =>
        rw [hm] at hx
        simp only [Option.some.injEq, Except.ok.injEq] at hx
        rw [← hx]
        exact chain'_markDups _ (chain'_sortIndexes nl)
    rcases usageRes with e1 | ul
    · exact hred [] h
    · exact hred ul h

/-- Witness for C7: two single-field indexes arriving out of order come back
sorted by `EffectiveKey`. -/
theorem collector_output_sorted_witness :
    getIndexesFromCollection (Except.ok []) (Except.ok
        [{ Key := [("b", BVal.vint32 1)], Name := "b_1" },
         { Key := [("a", BVal.vint32 1)], Name := "a_1" }]) (fun _ => false)
      = some (Except.ok [sampleA, sampleB1]) ∧
    List.Chain' effKeyNondec [sampleA, sampleB1] :=
  ⟨rfl, collector_output_sorted (Except.ok []) (Except.ok
      [{ Key := [("b", BVal.vint32 1)], Name := "b_1" },
       { Key := [("a", BVal.vint32 1)], Name := "a_1" }]) (fun _ => false)
    [sampleA, sampleB1] rfl⟩

/-! ### Claim C8 -/

/-- Characterization of a successful normalization: the output's `KeyString`
renders the key specification, its `Fields` lists the key's field names, and
its `EffectiveKey` is the brace-stripped, direction-normalized `KeyString`. -/
theorem normalizeIndex_eq_some (stats : List IndexUsage)
    (isShard : BDoc → Bool) (o o' : Index)
    (h : normalizeIndex stats isShard o = some o') :
    o'.KeyString = keyStringOf o.Key ∧
    o'.Fields = o.Key.map Prod.fst ∧
    o'.EffectiveKey =
      goReplace (((keyStringOf o.Key).drop 2).dropRight 2) ": -1" ": 1" := by
  simp only [normalizeIndex, apply_ite Index.KeyString, ite_self] at h
  cases hsl : goSliceStrip (keyStringOf o.Key) with
  | none => rw [hsl] at h; simp at h
  | some inner =>
    rw [hsl] at h
    have hinner : inner = ((keyStringOf o.Key).drop 2).dropRight 2 := by
      unfold goSliceStrip at hsl
      split at hsl
      · exact (Option.some.inj hsl).symm
      · exact absurd hsl (by simp)
    simp only [Option.some.injEq] at h
    refine ⟨?_, ?_, ?_⟩
    · rw [← h]
      try simp [apply_ite Index.KeyString, ite_self]
    · rw [← h]
      try simp [apply_ite Index.Fields, ite_self]
    · rw [← h, ← hinner]
      try simp [apply_ite Index.EffectiveKey, ite_self]

/-- **C8**: a normalized index's `EffectiveKey` is its `KeyString` with the
two leading and two trailing characters removed and every ": -1" replaced by
": 1"; consequently the keys `a:1,b:1` and `a:1,b:-1` normalize to the same
`EffectiveKey` while keeping distinct `KeyString`s. -/
theorem effectiveKey_normalization (stats : List IndexUsage)
    (isShard : BDoc → Bool) (o o' : Index)
    (h : normalizeIndex stats isShard o = some o') :
    o'.EffectiveKey = goReplace ((o'.KeyString.drop 2).dropRight 2) ": -1" ": 1" ∧
    ∃ iab iabn : Index,
      normalizeIndex [] (fun _ => false)
          { Key := [("a", BVal.vint32 1), ("b", BVal.vint32 1)] } = some iab ∧
      normalizeIndex [] (fun _ => false)
          { Key := [("a", BVal.vint32 1), ("b", BVal.vint32 (-1))] } = some iabn ∧
      iab.EffectiveKey = iabn.EffectiveKey ∧ iab.KeyString ≠ iabn.KeyString := by
  constructor
  · obtain ⟨hks, _, heff⟩ := normalizeIndex_eq_some stats isShard o o' h
    rw [hks, heff]
  · refine ⟨{ Key := [("a", BVal.vint32 1), ("b", BVal.vint32 1)],
              Fields := ["a", "b"], KeyString := "\x7b a: 1, b: 1 \x7d",
              EffectiveKey := "a: 1, b: 1" },
      { Key := [("a", BVal.vint32 1), ("b", BVal.vint32 (-1))],
        Fields := ["a", "b"], KeyString := "\x7b a: 1, b: -1 \x7d",
        EffectiveKey := "a: 1, b: 1" }, rfl, rfl, rfl, by decide⟩

/-- Witness for C8: the characterization applied to a concrete index. -/
theorem effectiveKey_normalization_witness :
    normalizeIndex [] (fun _ => false)
        { Key := [("a", BVal.vint32 1), ("b", BVal.vint32 (-1))], Name := "ab" }
      = some { Key := [("a", BVal.vint32 1), ("b", BVal.vint32 (-1))],
               Name := "ab", Fields := ["a", "b"],
               KeyString := "\x7b a: 1, b: -1 \x7d",
               EffectiveKey := "a: 1, b: 1" } ∧
    ({ Key := [("a", BVal.vint32 1), ("b", BVal.vint32 (-1))],
       Name := "ab", Fields := ["a", "b"],
       KeyString := "\x7b a: 1, b: -1 \x7d",
       EffectiveKey := "a: 1, b: 1" } : Index).EffectiveKey =
      goReplace ((("\x7b a: 1, b: -1 \x7d" : String).drop 2).dropRight 2)
        ": -1" ": 1" :=
  ⟨rfl, (effectiveKey_normalization [] (fun _ => false)
    { Key := [("a", BVal.vint32 1), ("b", BVal.vint32 (-1))], Name := "ab" }
    { Key := [("a", BVal.vint32 1), ("b", BVal.vint32 (-1))],
      Name := "ab", Fields := ["a", "b"],
      KeyString := "\x7b a: 1, b: -1 \x7d",
      EffectiveKey := "a: 1, b: 1" } rfl).1⟩

/-! ### Claim C10 -/

theorem keyStringOf_length (e : String × BVal) (rest : BDoc) :
    4 ≤ (keyStringOf (e :: rest)).length := by
  show 4 ≤ ("\x7b " ++ keyBody (e :: rest)).length
  rw [String.length_append]
  have h2 : ("\x7b " : String).length = 2 := rfl
  rw [h2]
  have hb : 2 ≤ (keyBody (e :: rest)).length := by
    cases rest with
    | nil =>
      show 2 ≤ (keyEntryStr e ++ " \x7d").length
      rw [String.length_append]
      have : (" \x7d" : String).length = 2 := rfl
      omega
    | cons f t =>
      show 2 ≤ (keyEntryStr e ++ ", " ++ keyBody (f :: t)).length
      rw [String.length_append, String.length_append]
      have : (", " : String).length = 2 := rfl
      omega
  omega

/-- **C10**: normalization is total exactly on indexes with a non-empty key
specification: a non-empty key yields a defined normalization with a
non-empty `Fields` (so the `Fields[0]` accesses of duplicate detection are in
bounds), while an empty key renders `KeyString` as the empty string, on which
the Go slice `KeyString[2:len-2]` is out of bounds (modelled as `none`). -/
theorem normalization_totality (stats : List IndexUsage)
    (isShard : BDoc → Bool) (o : Index) :
    (o.Key ≠ [] →
      ∃ o', normalizeIndex stats isShard o = some o' ∧ o'.Fields ≠ []) ∧
    (o.Key = [] → keyStringOf o.Key = "" ∧
      goSliceStrip (keyStringOf o.Key) = none ∧
      normalizeIndex stats isShard o = none) := by
  constructor
  · intro hne
    cases hk : o.Key with
    | nil => exact absurd hk hne
    | cons e rest =>
      have hlen : 4 ≤ (keyStringOf o.Key).length := by
        rw [hk]; exact keyStringOf_length e rest
      have hsl : goSliceStrip (keyStringOf o.Key) =
          some (((keyStringOf o.Key).drop 2).dropRight 2) := by
        unfold goSliceStrip
        rw [if_pos hlen]
      simp only [normalizeIndex, apply_ite Index.KeyString, ite_self, hsl]
      refine ⟨_, rfl, ?_⟩
      simp only [ne_eq, apply_ite Index.Fields, ite_self, List.map_eq_nil_iff, hk]
      simp
  · intro hk
    have hks : keyStringOf o.Key = "" := by rw [hk]; rfl
    refine ⟨hks, by rw [hks]; rfl, ?_⟩
    simp only [normalizeIndex, apply_ite Index.KeyString, ite_self, hks]
    rfl

/-- Witness for C10: a one-field key normalizes with non-empty `Fields`; the
empty key does not normalize. -/
theorem normalization_totality_witness :
    (∃ o', normalizeIndex [] (fun _ => false)
        { Key := [("a", BVal.vint32 1)], Name := "a_1" } = some o' ∧
      o'.Fields ≠ []) ∧
    normalizeIndex [] (fun _ => false) { Name := "nokey" } = none :=
  ⟨(normalization_totality [] (fun _ => false)
      { Key := [("a", BVal.vint32 1)], Name := "a_1" }).1 (List.cons_ne_nil _ _),
    ((normalization_totality [] (fun _ => false) { Name := "nokey" }).2 rfl).2.2⟩

/-! ### Claim C2 -/

theorem mapM_map_roundtrip {α : Type} (enc : α → BVal) (dec : BVal → Option α)
    (h : ∀ a, dec (enc a) = some a) (l : List α) :
    (l.map enc).mapM dec = some l := by
  induction l with
  | nil => rfl
  | cons a t ih =>
    rw [List.map_cons, List.mapM_cons, h a, ih]
    rfl

theorem decodeAccesses_encode (a : Accesses) :
    decodeAccesses (encodeAccesses a) = some a := rfl

theorem decodeUsage_encode (u : IndexUsage) :
    decodeUsage (encodeUsage u) = some u := rfl

theorem dOptDoc_encode (x : Option BDoc) :
    dOptDoc (some (encodeOptDoc x)) = some x := by
  cases x <;> rfl

theorem dStrArr_encode (l : List String) :
    dStrArr (some (.varr (l.map BVal.vstr))) = some l :=
  mapM_map_roundtrip BVal.vstr dStr1 (fun _ => rfl) l

theorem dUsageArr_encode (l : List IndexUsage) :
    dUsageArr (some (.varr (l.map (fun u => BVal.vdoc (encodeUsage u))))) =
      some l :=
  mapM_map_roundtrip (fun u => BVal.vdoc (encodeUsage u)) dUsage1
    (fun u => decodeUsage_encode u) l

theorem decodeIndex_encode (o : Index) :
    decodeIndex (encodeIndex o) = some o := by
  simp [decodeIndex, encodeIndex, blookup, dOptDoc_encode, dStrArr_encode,
    dUsageArr_encode, dBool, dInt, dInt32, dStr, dTime, dDocF]

theorem dIndexArr_encode (l : List Index) :
    dIndexArr (some (.varr (l.map (fun o => BVal.vdoc (encodeIndex o))))) =
      some l :=
  mapM_map_roundtrip (fun o => BVal.vdoc (encodeIndex o)) dIndex1
    (fun o => decodeIndex_encode o) l

theorem decodeCollection_encode (c : Collection) :
    decodeCollection (encodeCollection c) = some c := by
  simp [decodeCollection, encodeCollection, blookup, dStr, dIndexArr_encode]

theorem dCollArr_encode (l : List Collection) :
    dCollArr (some (.varr (l.map (fun c => BVal.vdoc (encodeCollection c))))) =
      some l :=
  mapM_map_roundtrip (fun c => BVal.vdoc (encodeCollection c)) dColl1
    (fun c => decodeCollection_encode c) l

theorem decodeDatabase_encode (db : Database) :
    decodeDatabase (encodeDatabase db) = some db := by
  simp [decodeDatabase, encodeDatabase, blookup, dStr, dCollArr_encode]

theorem dDbArr_encode (l : List Database) :
    dDbArr (some (.varr (l.map (fun db => BVal.vdoc (encodeDatabase db))))) =
      some l :=
  mapM_map_roundtrip (fun db => BVal.vdoc (encodeDatabase db)) dDb1
    (fun db => decodeDatabase_encode db) l

theorem decodeLogger_encode (lg : Logger) :
    decodeLogger (encodeLogger lg) = some lg := rfl

theorem decodeIndexStats_encode (S ix0 : IndexStats) :
    decodeIndexStats (encodeIndexStats S) ix0 =
      some { ix0 with Databases := S.Databases, Logger := S.Logger } := by
  simp [decodeIndexStats, encodeIndexStats, blookup, dDbArr_encode,
    decodeLogger_encode]

theorem goHasSuffix_append (pre s sfx : String)
    (h : goHasSuffix s sfx = true) : goHasSuffix (pre ++ s) sfx = true := by
  unfold goHasSuffix at h ⊢
  rw [String.data_append]
  rw [List.isSuffixOf_iff_suffix] at h ⊢
  obtain ⟨t, ht⟩ := h
  exact ⟨pre.data ++ t, by rw [List.append_assoc, ht]⟩

/-- **C2**: writing a snapshot with `OutputBSON` and loading the produced
file back (into any receiver) restores every serialized field of the data
model — databases, collections, indexes with all optional properties (TTL,
collation, partial filter, sparse, unique, background), usage records and
provenance metadata — with nil documents (`none`) kept distinguishable from
present-but-empty ones (`some []`) through the BSON-null encoding. -/
theorem snapshot_roundtrip (S ix0 : IndexStats)
    (hsfx : goHasSuffix S.filename "-index.bson.gz" = true) :
    setClusterDetailsFromFile ix0 (outputBSON S).1 (some (outputBSON S).2) =
      Except.ok { ix0 with Databases := S.Databases, Logger := S.Logger } := by
  have hs : goHasSuffix ("./out/" ++ S.filename) "-index.bson.gz" = true :=
    goHasSuffix_append "./out/" S.filename _ hsfx
  have hcond : (goHasSuffix ("./out/" ++ S.filename) "-index.bson.gz" == false &&
      goHasSuffix ("./out/" ++ S.filename) "-stats.bson.gz" == false) = false := by
    rw [hs]
    rfl
  unfold outputBSON setClusterDetailsFromFile
  rw [hcond]
  simp only [Bool.false_eq_true, if_false]
  rw [decodeIndexStats_encode S ix0]

/-- Witness for C2: the sample snapshot carrying every optional index
property survives the save/load cycle into a fresh receiver. -/
theorem snapshot_roundtrip_witness :
    goHasSuffix sampleSnapshot.filename "-index.bson.gz" = true ∧
    setClusterDetailsFromFile {} (outputBSON sampleSnapshot).1
        (some (outputBSON sampleSnapshot).2) =
      Except.ok { Databases := sampleSnapshot.Databases,
                  Logger := sampleSnapshot.Logger } :=
  ⟨rfl, snapshot_roundtrip sampleSnapshot {} rfl⟩

end Keyhole
